import Mathlib

/-!
# PolyglotStream core coordination logic: a shallow embedding

This file embeds the multi-stream coordination logic of the translation
console (`src/App.tsx` and the streaming service `streamTranslation`) and
proves the spec's testable properties about it.

The JavaScript host is single-threaded: every state mutation happens inside
a synchronous callback (the debounced-input effect, a per-chunk callback, a
per-stream catch handler, or the `finally` continuation after `Promise.all`).
We therefore model an execution as a list of atomic events folded over the
application state with a deterministic step function; quantifying over event
lists quantifies over all interleavings the event loop can produce.
-/

/-- The four target languages (`SupportedLanguage` in `types.ts`). -/
inductive Lang where
  | chineseTraditional
  | english
  | japanese
  | spanish
deriving DecidableEq, Repr

/-- `TARGET_LANGUAGES`: the fixed ordered set of target languages. -/
def TARGET_LANGUAGES : List Lang :=
  [Lang.chineseTraditional, Lang.english, Lang.japanese, Lang.spanish]

/-- The `translations` record of `App.tsx` (lines 25-30): accumulated text per
language. -/
structure Translations where
  zh : String
  en : String
  ja : String
  es : String
deriving DecidableEq, Repr

/-- Read the accumulator of one language (`translations[lang]`). -/
def Translations.get (t : Translations) : Lang → String
  | Lang.chineseTraditional => t.zh
  | Lang.english => t.en
  | Lang.japanese => t.ja
  | Lang.spanish => t.es

/-- `setTranslations(prev => ({...prev, [lang]: prev[lang] + chunk}))`
(App.tsx lines 72-75): append a chunk to one language's accumulator. -/
def Translations.append (t : Translations) (l : Lang) (c : String) : Translations :=
  match l with
  | Lang.chineseTraditional => { t with zh := t.zh ++ c }
  | Lang.english => { t with en := t.en ++ c }
  | Lang.japanese => { t with ja := t.ja ++ c }
  | Lang.spanish => { t with es := t.es ++ c }

/-- The all-empty record used at initialisation and at every reset
(App.tsx lines 25-30, 43-48, 58-63, 103-108). -/
def emptyTranslations : Translations := { zh := "", en := "", ja := "", es := "" }

/-- The aggregate UI-facing state of `App`: the per-language accumulators,
the `isStreaming` flag, the `error` slot, and the `currentRequestId` ref
(App.tsx lines 25-39). -/
structure AppState where
  translations : Translations
  isStreaming : Bool
  error : Option String
  currentRequestId : Nat
deriving DecidableEq, Repr

/-- The state at mount: empty accumulators, not streaming, no error,
`useRef(0)` for the request id. -/
def initialState : AppState :=
  { translations := emptyTranslations
    isStreaming := false
    error := none
    currentRequestId := 0 }

/-! ## Request generation guard

`App.tsx` keeps `currentRequestId = useRef(0)`; a generation begins with
`const requestId = ++currentRequestId.current` (line 53) and every callback
compares `currentRequestId.current === requestId` (lines 71, 88, 92). -/

/-- `++currentRequestId.current`: pre-increment, returning the new counter
value and the freshly issued generation id (they coincide). -/
def beginGeneration (counter : Nat) : Nat × Nat := (counter + 1, counter + 1)

/-- The staleness check `currentRequestId.current === requestId`. -/
def isCurrent (counter id : Nat) : Bool := counter == id

/-- The ids issued by `k` successive `beginGeneration` calls starting from
counter value `c`, in issue order. -/
def genCalls : Nat → Nat → List Nat
  | _, 0 => []
  | c, Nat.succ k => (beginGeneration c).2 :: genCalls (beginGeneration c).1 k

/-- The counter value after `k` successive `beginGeneration` calls. -/
def afterCalls : Nat → Nat → Nat
  | c, 0 => c
  | c, Nat.succ k => afterCalls (beginGeneration c).1 k

/-! ## The multiplexer as an event system

`performTranslation` (App.tsx lines 41-96) runs synchronously from its entry
to the point where the four per-language streams are launched; afterwards the
event loop delivers per-chunk callbacks, per-stream catch handlers and, once
`Promise.all` settles, the `finally` continuation, in some interleaved order.
Each of these is one atomic `Event`. -/

/-- JavaScript's `String.prototype.trim()`: strip whitespace from both ends
of the string. The source uses it only through the blank test `!text.trim()`. -/
def jsTrim (text : String) : String :=
  String.mk (((text.data.dropWhile Char.isWhitespace).reverse.dropWhile
    Char.isWhitespace).reverse)

/-- The synchronous prefix of `performTranslation(text)` (App.tsx lines
41-63 plus the launch of the streams): returns the updated state and the
list of languages for which a streaming request is issued.

* empty/whitespace `text` (lines 42-51): reset the accumulators, clear
  `isStreaming`, return — `currentRequestId` and `error` are not touched and
  no request is issued;
* otherwise (lines 53-67): pre-increment `currentRequestId`, set
  `isStreaming`, clear `error`, reset the accumulators, and issue one request
  per language of `TARGET_LANGUAGES`. -/
def performTranslationStart (s : AppState) (text : String) : AppState × List Lang :=
  if jsTrim text = "" then
    ({ s with translations := emptyTranslations, isStreaming := false }, [])
  else
    ({ translations := emptyTranslations
       isStreaming := true
       error := none
       currentRequestId := s.currentRequestId + 1 }, TARGET_LANGUAGES)

/-- The debounced-input effect (App.tsx lines 99-111): a non-blank value is
handed to `performTranslation`; a blank one resets the accumulators and
clears `isStreaming` directly (again without touching `currentRequestId` or
`error`), issuing no request. -/
def handleDebouncedInput (s : AppState) (text : String) : AppState × List Lang :=
  if jsTrim text = "" then
    ({ s with translations := emptyTranslations, isStreaming := false }, [])
  else performTranslationStart s text

/-- One atomic callback run by the event loop. -/
inductive Event where
  /-- The debounced input changed to `text` (App.tsx lines 99-111). -/
  | debouncedInput (text : String)
  /-- A chunk callback of the stream for language `lang`, launched by
  generation `gen`, delivering `text` (App.tsx lines 69-77). -/
  | chunk (gen : Nat) (lang : Lang) (text : String)
  /-- The per-stream catch handler of generation `gen`'s stream for `lang`
  (App.tsx lines 78-81): it only logs; no state is touched. -/
  | streamError (gen : Nat) (lang : Lang)
  /-- The continuation after `Promise.all` of generation `gen` settles
  (App.tsx lines 84-95): all `N` of the generation's streams have settled.
  The inner catch handlers swallow every stream failure, so `Promise.all`
  always fulfils and the outer `catch` (lines 86-90) never runs; only the
  `finally` block executes, clearing `isStreaming` when the generation is
  still current. -/
  | allSettled (gen : Nat)
deriving DecidableEq, Repr

/-- The effect of one event on the application state. -/
def step (s : AppState) : Event → AppState
  | Event.debouncedInput text => (handleDebouncedInput s text).1
  | Event.chunk gen lang text =>
      if s.currentRequestId = gen then
        { s with translations := s.translations.append lang text }
      else s
  | Event.streamError _ _ => s
  | Event.allSettled gen =>
      if s.currentRequestId = gen then { s with isStreaming := false } else s

/-- Run a list of events in order. -/
def run (s : AppState) (evs : List Event) : AppState := evs.foldl step s

/-- Events produced by an in-flight stream (a chunk callback or a per-stream
catch handler), as opposed to input events and `Promise.all` continuations. -/
def Event.isStreamEvent : Event → Bool
  | Event.chunk _ _ _ => true
  | Event.streamError _ _ => true
  | _ => false

/-! ## The streaming service

`streamTranslation` (`geminiService`, src/unnamed/part_000 lines 8-59)
guards blank input (line 13: `if (!text.trim()) return;`) and then iterates
the model's chunk stream (lines 48-53), forwarding `chunk.text` to the
`onChunk` callback only when it is truthy — present and non-empty. We model
the raw stream as the list of `chunk.text` payloads (`none` for an absent
field) and compute the list of texts the callback is invoked with, in
order. -/

/-- The callback invocations `streamTranslation(text, _, onChunk)` performs,
in order, given the raw `chunk.text` payloads of the response stream. -/
def streamTranslation (text : String) (raw : List (Option String)) : List String :=
  if jsTrim text = "" then []
  else raw.filterMap (fun c =>
    match c with
    | some t => if t = "" then none else some t
    | none => none)

/-! ## The debouncer

`useDebounce` (App.tsx lines 8-19): every change of the input value runs the
effect, which schedules the emission of the new value `delay` later; the
effect's cleanup — run before the next effect, and at teardown — cancels
the previously scheduled timer. We model a session as the list of value
changes with their arrival times (strictly increasing), plus an optional
teardown time, and compute the emissions: the timer scheduled by a change
fires at its deadline unless a later change or the teardown occurs strictly
before that deadline. -/

/-- Does the timer scheduled at time `t` (deadline `t + delay`) fire, given
the time of the next change (if any) and the teardown time (if any)? -/
def firesAt (delay t : Nat) (next teardown : Option Nat) : Bool :=
  (match next with
   | some t2 => decide (t + delay ≤ t2)
   | none => true) &&
  (match teardown with
   | some td => decide (t + delay ≤ td)
   | none => true)

/-- The emissions of a `useDebounce` session: for each change `(t, v)` whose
timer is not cancelled by the following change or by teardown, the value `v`
is emitted at time `t + delay`. -/
def debounceEmissions {T : Type} (delay : Nat) (teardown : Option Nat) :
    List (Nat × T) → List (Nat × T)
  | [] => []
  | (t, v) :: rest =>
    (if firesAt delay t (rest.head?.map Prod.fst) teardown then [(t + delay, v)] else [])
      ++ debounceEmissions delay teardown rest

/-! ## Lemmas and theorems -/

lemma genCalls_closed (c k : Nat) :
    genCalls c k = (List.range k).map (fun i => c + 1 + i) := by
  induction k generalizing c with
  | zero => rfl
  | succ k ih =>
    rw [List.range_succ_eq_map]
    simp [genCalls, beginGeneration, ih, List.map_map, Function.comp]
    intro a _
    omega

lemma afterCalls_closed (c k : Nat) : afterCalls c k = c + k := by
  induction k generalizing c with
  | zero => rfl
  | succ k ih => simp [afterCalls, beginGeneration, ih]; omega

/-- C6: `beginGeneration` called `k` times yields `k` strictly increasing
ids; `isCurrent` (against the counter after the calls) holds for an issued
id exactly when it is the most recently issued one (the last of the list). -/
theorem generation_monotonicity (c k : Nat) :
    List.Pairwise (· < ·) (genCalls c k) ∧
    (k ≠ 0 → (genCalls c k).getLast? = some (afterCalls c k)) ∧
    (∀ id, id ∈ genCalls c k →
      (isCurrent (afterCalls c k) id = true ↔ (genCalls c k).getLast? = some id)) := by
  have hclosed := genCalls_closed c k
  have hafter := afterCalls_closed c k
  have hlast : k ≠ 0 → (genCalls c k).getLast? = some (c + k) := by
    intro hk
    rw [hclosed]
    obtain ⟨k', rfl⟩ : ∃ k', k = k' + 1 := ⟨k - 1, by omega⟩
    rw [List.range_succ]
    simp
    omega
  refine ⟨?_, ?_, ?_⟩
  · rw [hclosed, List.pairwise_map]
    exact List.Pairwise.imp (fun h => by omega) (List.pairwise_lt_range k)
  · intro hk
    rw [hafter]
    exact hlast hk
  · intro id hid
    have hk : k ≠ 0 := by
      rintro rfl
      simp [genCalls] at hid
    have hmem : id ≤ c + k ∧ c + 1 ≤ id := by
      rw [hclosed] at hid
      simp at hid
      obtain ⟨i, hi, rfl⟩ := hid
      omega
    rw [hafter, hlast hk]
    constructor
    · intro h
      have : c + k = id := by
        simpa [isCurrent] using h
      simp [this]
    · intro h
      have : id = c + k := by
        simpa using h.symm
      simp [isCurrent, this]

/-- Witness for C6: three calls from a fresh counter issue ids `[1, 2, 3]`,
pairwise increasing, and after them `isCurrent` accepts exactly the last. -/
theorem generation_monotonicity_witness :
    List.Pairwise (· < ·) (genCalls 0 3) ∧
    (isCurrent (afterCalls 0 3) 2 = true ↔ (genCalls 0 3).getLast? = some 2) :=
  ⟨(generation_monotonicity 0 3).1,
   (generation_monotonicity 0 3).2.2 2 (by decide)⟩

lemma run_append (s : AppState) (evs evs2 : List Event) :
    run s (evs ++ evs2) = run (run s evs) evs2 :=
  List.foldl_append step s evs evs2

/-- `currentRequestId` never decreases: the only event that changes it is a
non-blank debounced input, which increments it. -/
lemma currentRequestId_le_step (s : AppState) (e : Event) :
    s.currentRequestId ≤ (step s e).currentRequestId := by
  cases e with
  | debouncedInput text =>
    simp only [step, handleDebouncedInput, performTranslationStart]
    split
    · exact Nat.le_refl _
    · exact Nat.le_succ _
  | chunk gen lang text =>
    simp only [step]
    split <;> exact Nat.le_refl _
  | streamError gen lang => exact Nat.le_refl _
  | allSettled gen =>
    simp only [step]
    split <;> exact Nat.le_refl _

lemma currentRequestId_le_run (s : AppState) (evs : List Event) :
    s.currentRequestId ≤ (run s evs).currentRequestId := by
  induction evs generalizing s with
  | nil => exact Nat.le_refl _
  | cons e evs ih =>
    exact Nat.le_trans (currentRequestId_le_step s e) (ih (step s e))

/-- A stream event never changes `isStreaming` or `currentRequestId`. -/
lemma streamEvent_frame (s : AppState) (e : Event) (h : e.isStreamEvent = true) :
    (step s e).isStreaming = s.isStreaming ∧
    (step s e).currentRequestId = s.currentRequestId := by
  cases e with
  | debouncedInput text => simp [Event.isStreamEvent] at h
  | chunk gen lang text =>
    simp only [step]
    split <;> exact ⟨rfl, rfl⟩
  | streamError gen lang => exact ⟨rfl, rfl⟩
  | allSettled gen => simp [Event.isStreamEvent] at h

lemma streamEvents_frame (s : AppState) (evs : List Event)
    (h : ∀ e ∈ evs, e.isStreamEvent = true) :
    (run s evs).isStreaming = s.isStreaming ∧
    (run s evs).currentRequestId = s.currentRequestId := by
  induction evs generalizing s with
  | nil => exact ⟨rfl, rfl⟩
  | cons e evs ih =>
    have he := streamEvent_frame s e (h e (List.mem_cons_self e evs))
    have hrest := ih (step s e) (fun e' he' => h e' (List.mem_cons_of_mem e he'))
    exact ⟨hrest.1.trans he.1, hrest.2.trans he.2⟩

/-- C1: a chunk callback appends its chunk to the tagged language's
accumulator exactly when its generation id equals the latest issued id at
the moment it runs (App.tsx line 71); and once a later generation has begun
(the counter exceeds the chunk's tag), the chunk leaves the whole state
untouched no matter which events — of any generation, in any wall-clock
order — were delivered in between. -/
theorem staleness_suppression (s : AppState) (g : Nat) (l : Lang) (c : String) :
    ((step s (Event.chunk g l c)).translations =
      if s.currentRequestId = g then s.translations.append l c else s.translations) ∧
    (∀ evs : List Event, g < s.currentRequestId →
      run s (evs ++ [Event.chunk g l c]) = run s evs) := by
  constructor
  · simp only [step]
    split <;> rfl
  · intro evs hg
    rw [run_append]
    have hmono := currentRequestId_le_run s evs
    have hne : (run s evs).currentRequestId ≠ g := by omega
    show step (run s evs) (Event.chunk g l c) = run s evs
    simp [step, hne]

/-- Witness for C1: with the counter at 2 (generation 2 begun), a late chunk
tagged with generation 1 is dropped even when delivered after further
events. -/
theorem staleness_suppression_witness :
    (1 < (AppState.mk emptyTranslations true none 2).currentRequestId) ∧
    run (AppState.mk emptyTranslations true none 2)
        ([Event.chunk 2 Lang.english "new"] ++ [Event.chunk 1 Lang.english "stale"]) =
      run (AppState.mk emptyTranslations true none 2) [Event.chunk 2 Lang.english "new"] :=
  ⟨by decide,
   (staleness_suppression (AppState.mk emptyTranslations true none 2) 1 Lang.english "stale").2
     [Event.chunk 2 Lang.english "new"] (by decide)⟩

/-- C5: while a generation is current, delivering its chunks for one
language in emission order accumulates exactly their in-order concatenation
onto that language's accumulator — no reordering, no deduplication. -/
theorem append_order_fidelity (s : AppState) (g : Nat) (l : Lang) (cs : List String)
    (h : s.currentRequestId = g) :
    (run s (cs.map (Event.chunk g l))).translations.get l =
      cs.foldl (fun acc c => acc ++ c) (s.translations.get l) := by
  induction cs generalizing s with
  | nil => rfl
  | cons c cs ih =>
    simp only [List.map_cons, List.foldl_cons, run, List.foldl_cons]
    have hstep : step s (Event.chunk g l c) =
        { s with translations := s.translations.append l c } := by
      simp [step, h]
    rw [hstep]
    have := ih { s with translations := s.translations.append l c } h
    simp only [run] at this
    rw [this]
    congr 1
    cases l <;> rfl

/-- Witness for C5: a current-generation stream emitting `["Hola", " mundo"]`
accumulates exactly `"Hola mundo"`. -/
theorem append_order_fidelity_witness :
    (AppState.mk emptyTranslations true none 1).currentRequestId = 1 ∧
    (run (AppState.mk emptyTranslations true none 1)
        (["Hola", " mundo"].map (Event.chunk 1 Lang.spanish))).translations.get Lang.spanish =
      "Hola mundo" :=
  ⟨rfl,
   (append_order_fidelity (AppState.mk emptyTranslations true none 1) 1 Lang.spanish
      ["Hola", " mundo"] rfl).trans (by decide)⟩

/-- C2: starting a generation on non-blank input sets `isStreaming` true; it
stays true across any interleaving of stream events (chunks and per-stream
failures, of any generation, in any settle order) — the flag only clears at
the `Promise.all` continuation, which the event loop runs exactly when all
`N` of the generation's streams have settled; that continuation clears the
flag when the generation is still current, and is a complete no-op when the
generation has been superseded. -/
theorem completion_gating (s0 : AppState) (text : String) (body : List Event)
    (htext : jsTrim text ≠ "") (hbody : ∀ e ∈ body, e.isStreamEvent = true) :
    (step s0 (Event.debouncedInput text)).isStreaming = true ∧
    (run (step s0 (Event.debouncedInput text)) body).isStreaming = true ∧
    (step (run (step s0 (Event.debouncedInput text)) body)
        (Event.allSettled (s0.currentRequestId + 1))).isStreaming = false ∧
    (∀ s : AppState, s.currentRequestId ≠ s0.currentRequestId + 1 →
      step s (Event.allSettled (s0.currentRequestId + 1)) = s) := by
  have hstart : step s0 (Event.debouncedInput text) =
      { translations := emptyTranslations
        isStreaming := true
        error := none
        currentRequestId := s0.currentRequestId + 1 } := by
    simp [step, handleDebouncedInput, performTranslationStart, htext]
  have hframe := streamEvents_frame (step s0 (Event.debouncedInput text)) body hbody
  refine ⟨by rw [hstart], ?_, ?_, ?_⟩
  · rw [hframe.1, hstart]
  · have hid : (run (step s0 (Event.debouncedInput text)) body).currentRequestId =
        s0.currentRequestId + 1 := by
      rw [hframe.2, hstart]
    generalize hX : run (step s0 (Event.debouncedInput text)) body = X at hid ⊢
    simp [step, hid]
  · intro s hs
    simp [step, hs]

/-- Witness for C2: generation 1 of input `"hi"`, with three of the four
streams delivering chunks, one failing, in an arbitrary settle order: the
flag is true throughout and clears at the `Promise.all` continuation. -/
theorem completion_gating_witness :
    (jsTrim "hi" ≠ "") ∧
    (step (run (step initialState (Event.debouncedInput "hi"))
        [Event.chunk 1 Lang.english "Hel", Event.streamError 1 Lang.spanish,
         Event.chunk 1 Lang.japanese "こん", Event.chunk 1 Lang.english "lo"])
      (Event.allSettled (initialState.currentRequestId + 1))).isStreaming = false :=
  ⟨by decide,
   (completion_gating initialState "hi"
      [Event.chunk 1 Lang.english "Hel", Event.streamError 1 Lang.spanish,
       Event.chunk 1 Lang.japanese "こん", Event.chunk 1 Lang.english "lo"]
      (by decide) (by decide)).2.2.1⟩

/-- C7: a blank debounced input resets every language's accumulator to the
empty string, clears `isStreaming`, and issues zero stream operations,
whatever state the prior generation had accumulated. -/
theorem empty_input_reset (s : AppState) (text : String) (h : jsTrim text = "") :
    (∀ l, (handleDebouncedInput s text).1.translations.get l = "") ∧
    (handleDebouncedInput s text).1.isStreaming = false ∧
    (handleDebouncedInput s text).2 = [] := by
  have hdef : handleDebouncedInput s text =
      ({ s with translations := emptyTranslations, isStreaming := false }, []) := by
    simp [handleDebouncedInput, h]
  rw [hdef]
  exact ⟨fun l => by cases l <;> rfl, rfl, rfl⟩

/-- Witness for C7: non-empty accumulated state from generation 3, blank
input `"  "`: all accumulators cleared, flag cleared, nothing issued. -/
theorem empty_input_reset_witness :
    jsTrim "  " = "" ∧
    (handleDebouncedInput
        (AppState.mk (Translations.mk "甲" "prior" "乙" "hola") true none 3) "  ").1.isStreaming
      = false ∧
    (handleDebouncedInput
        (AppState.mk (Translations.mk "甲" "prior" "乙" "hola") true none 3) "  ").2 = [] :=
  ⟨by decide,
   (empty_input_reset (AppState.mk (Translations.mk "甲" "prior" "乙" "hola") true none 3)
      "  " (by decide)).2.1,
   (empty_input_reset (AppState.mk (Translations.mk "甲" "prior" "乙" "hola") true none 3)
      "  " (by decide)).2.2⟩

/-- C10: on blank text, `performTranslation`'s early-return branch (and the
effect's blank branch) writes only the accumulators and `isStreaming`: the
generation counter and the `error` slot are left unchanged, so a previously
surfaced error persists and ids issued to the previous generation still pass
the staleness check afterwards. -/
theorem empty_input_frame (s : AppState) (text : String) (h : jsTrim text = "") :
    (performTranslationStart s text).1.currentRequestId = s.currentRequestId ∧
    (performTranslationStart s text).1.error = s.error ∧
    (handleDebouncedInput s text).1.currentRequestId = s.currentRequestId ∧
    (handleDebouncedInput s text).1.error = s.error ∧
    (∀ g, isCurrent (performTranslationStart s text).1.currentRequestId g =
      isCurrent s.currentRequestId g) := by
  simp [performTranslationStart, handleDebouncedInput, h]

/-- Witness for C10: blank input over a state carrying an error and counter
1: error message and counter survive, and generation 1 is still current. -/
theorem empty_input_frame_witness :
    jsTrim "" = "" ∧
    (performTranslationStart
        (AppState.mk emptyTranslations false
          (some "One or more translations failed. Please try again.") 1) "").1.error =
      some "One or more translations failed. Please try again." ∧
    isCurrent
      (performTranslationStart
        (AppState.mk emptyTranslations false
          (some "One or more translations failed. Please try again.") 1) "").1.currentRequestId
      1 = isCurrent 1 1 :=
  ⟨rfl,
   ((empty_input_frame
      (AppState.mk emptyTranslations false
        (some "One or more translations failed. Please try again.") 1) "" rfl).2.1).trans rfl,
   (empty_input_frame
      (AppState.mk emptyTranslations false
        (some "One or more translations failed. Please try again.") 1) "" rfl).2.2.2.2 1⟩

/-- C3 (code divergence): the claim says a fresh generation id is obtained
before the blank-input early return, so that emptied input supersedes an
in-flight generation. The code increments `currentRequestId` only after the
blank test (App.tsx line 53 comes after lines 42-51), and the effect's blank
branch (lines 102-110) does not touch the counter either. Concretely: with
generation 1 in flight and its English accumulator at `"Hel"`, a blank input
resets the state but leaves the counter at 1, and a late generation-1 chunk
`"lo"` still passes the staleness check and repopulates the accumulator. -/
theorem empty_input_does_not_supersede :
    (performTranslationStart
        (AppState.mk (Translations.mk "" "Hel" "" "") true none 1) "").1.currentRequestId = 1 ∧
    (handleDebouncedInput
        (AppState.mk (Translations.mk "" "Hel" "" "") true none 1) "").1.currentRequestId = 1 ∧
    run (AppState.mk (Translations.mk "" "Hel" "" "") true none 1)
        [Event.debouncedInput "", Event.chunk 1 Lang.english "lo"] =
      AppState.mk (Translations.mk "" "lo" "" "") false none 1 := by
  refine ⟨rfl, rfl, ?_⟩
  decide

/-- Every step preserves a null `error` slot: the only write to `error` that
can ever run is `setError(null)` at the start of a non-blank generation
(App.tsx line 55); the `setError(message)` in the outer catch (line 89) is
unreachable because the inner per-stream catch (lines 78-81) swallows every
stream failure and `Promise.all` therefore always fulfils. -/
lemma error_none_step (s : AppState) (e : Event) (h : s.error = none) :
    (step s e).error = none := by
  cases e with
  | debouncedInput text =>
    simp only [step, handleDebouncedInput, performTranslationStart]
    split
    · exact h
    · rfl
  | chunk gen lang text =>
    simp only [step]
    split
    · exact h
    · exact h
  | streamError gen lang => exact h
  | allSettled gen =>
    simp only [step]
    split
    · exact h
    · exact h

lemma run_error_none (evs : List Event) : (run initialState evs).error = none := by
  suffices hgen : ∀ s : AppState, s.error = none → (run s evs).error = none from
    hgen initialState rfl
  induction evs with
  | nil => exact fun s h => h
  | cons e evs ih => exact fun s h => ih (step s e) (error_none_step s e h)

/-- C4 (code divergence): when exactly one of the four streams of a current
generation fails, the other three are indeed unaffected and accumulate their
full text — but the aggregate `error` slot is never set: no reachable state
of the model has a non-null `error`, and in the concrete one-failure run the
final state still carries `error = none` where the claim requires an error
message. -/
theorem single_failure_isolation_no_error :
    (∀ evs : List Event, (run initialState evs).error = none) ∧
    ((run initialState
        [Event.debouncedInput "hi",
         Event.chunk 1 Lang.english "Hel", Event.chunk 1 Lang.chineseTraditional "你",
         Event.streamError 1 Lang.spanish,
         Event.chunk 1 Lang.english "lo", Event.chunk 1 Lang.japanese "こんにちは",
         Event.allSettled 1]) =
      AppState.mk (Translations.mk "你" "Hello" "こんにちは" "") false none 1) :=
  ⟨run_error_none, by decide⟩

/-- C9: `streamTranslation` invokes its chunk callback only with non-empty
strings; an empty or absent `chunk.text` is skipped without affecting the
delivered sequence; a trailing non-empty chunk is delivered, in order, after
the earlier ones; and blank input produces no invocation at all. -/
theorem stream_chunk_delivery (text : String) (raw : List (Option String)) :
    (∀ c ∈ streamTranslation text raw, c ≠ "") ∧
    (jsTrim text = "" → streamTranslation text raw = []) ∧
    (streamTranslation text (raw ++ [some ""]) = streamTranslation text raw) ∧
    (streamTranslation text (raw ++ [none]) = streamTranslation text raw) ∧
    (∀ t : String, t ≠ "" → jsTrim text ≠ "" →
      streamTranslation text (raw ++ [some t]) = streamTranslation text raw ++ [t]) := by
  refine ⟨?_, ?_, ?_, ?_, ?_⟩
  · intro c hc
    simp only [streamTranslation] at hc
    split at hc
    · simp at hc
    · rw [List.mem_filterMap] at hc
      obtain ⟨a, _, ha⟩ := hc
      cases a with
      | none => simp at ha
      | some t =>
        by_cases ht : t = ""
        · simp [ht] at ha
        · simp [ht] at ha
          rw [← ha]
          exact ht
  · intro htext
    simp [streamTranslation, htext]
  · by_cases htext : jsTrim text = "" <;>
      simp [streamTranslation, htext, List.filterMap_append]
  · by_cases htext : jsTrim text = "" <;>
      simp [streamTranslation, htext, List.filterMap_append]
  · intro t ht htext
    simp [streamTranslation, htext, List.filterMap_append, ht]

/-- Witness for C9: blank input delivers nothing; an empty chunk is skipped;
a non-empty chunk is appended in order. -/
theorem stream_chunk_delivery_witness :
    streamTranslation " " [some "x"] = [] ∧
    streamTranslation "hi" ([some "a"] ++ [some ""]) = streamTranslation "hi" [some "a"] ∧
    streamTranslation "hi" ([some "a"] ++ [some "b"]) =
      streamTranslation "hi" [some "a"] ++ ["b"] :=
  ⟨(stream_chunk_delivery " " [some "x"]).2.1 (by decide),
   (stream_chunk_delivery "hi" [some "a"]).2.2.1,
   (stream_chunk_delivery "hi" [some "a"]).2.2.2.2 "b" (by decide) (by decide)⟩

lemma debounceEmissions_cons_of_cancelled {T : Type} (delay : Nat) (teardown : Option Nat)
    (t : Nat) (v : T) (rest : List (Nat × T))
    (h : firesAt delay t (rest.head?.map Prod.fst) teardown = false) :
    debounceEmissions delay teardown ((t, v) :: rest) =
      debounceEmissions delay teardown rest := by
  rw [debounceEmissions, h]
  simp

/-- C8: for a session whose consecutive changes are each separated by less
than the quiescence window, no intermediate value is ever emitted: without
teardown the session emits exactly once, the last value at its deadline;
and a teardown before that deadline cancels the pending emission, leaving
no emission at all. -/
theorem debounce_correctness {T : Type} (delay : Nat) (changes : List (Nat × T))
    (tl : Nat) (vl : T)
    (hrapid : List.Chain' (fun a b => a.1 < b.1 ∧ b.1 < a.1 + delay) (changes ++ [(tl, vl)])) :
    debounceEmissions delay none (changes ++ [(tl, vl)]) = [(tl + delay, vl)] ∧
    (∀ td, td < tl + delay → debounceEmissions delay (some td) (changes ++ [(tl, vl)]) = []) := by
  induction changes with
  | nil =>
    constructor
    · simp [debounceEmissions, firesAt]
    · intro td htd
      have hnotle : ¬(tl + delay ≤ td) := by omega
      simp [debounceEmissions, firesAt, hnotle]
  | cons c changes ih =>
    obtain ⟨t, v⟩ := c
    rw [List.cons_append, List.chain'_cons'] at hrapid
    obtain ⟨hhead, htail⟩ := hrapid
    obtain ⟨hd, L', hL⟩ : ∃ hd L', changes ++ [(tl, vl)] = hd :: L' := by
      cases hcl : changes ++ [(tl, vl)] with
      | nil => simp at hcl
      | cons hd L' => exact ⟨hd, L', rfl⟩
    have hR := hhead hd (by simp [hL])
    have hnotle : ¬(t + delay ≤ hd.1) := by omega
    have ihr := ih htail
    have hcancel : ∀ teardown : Option Nat,
        firesAt delay t ((changes ++ [(tl, vl)]).head?.map Prod.fst) teardown = false := by
      intro teardown
      rw [hL]
      simp only [List.head?_cons, Option.map_some', firesAt]
      rw [decide_eq_false hnotle]
      rfl
    constructor
    · rw [List.cons_append, debounceEmissions_cons_of_cancelled _ _ _ _ _ (hcancel none)]
      exact ihr.1
    · intro td htd
      rw [List.cons_append, debounceEmissions_cons_of_cancelled _ _ _ _ _ (hcancel (some td))]
      exact ihr.2 td htd

/-- Witness for C8: two changes 500 apart under an 800 window: only the
second value is emitted, at its deadline 1300; a teardown at 900 — before
that deadline — cancels it, leaving no emission. -/
theorem debounce_correctness_witness :
    debounceEmissions 800 none ([(0, "a")] ++ [(500, "b")]) = [(1300, "b")] ∧
    debounceEmissions 800 (some 900) ([(0, "a")] ++ [(500, "b")]) = [] :=
  ⟨(debounce_correctness 800 [(0, "a")] 500 "b"
      (by simp only [List.cons_append, List.nil_append, List.chain'_cons]
          exact ⟨⟨by norm_num, by norm_num⟩, List.chain'_singleton _⟩)).1,
   (debounce_correctness 800 [(0, "a")] 500 "b"
      (by simp only [List.cons_append, List.nil_append, List.chain'_cons]
          exact ⟨⟨by norm_num, by norm_num⟩, List.chain'_singleton _⟩)).2 900 (by decide)⟩
